import Mathlib

/-!
Shallow embedding of the JOS kernel monitor (kern/monitor.c): the line
tokenizer and command dispatcher (`runcmd`), the stack unwinder
(`mon_backtrace`), the mapping inspector (`mon_showmappings`), and the
REPL loop (`monitor`).  External collaborators (console, `strtol`,
`debuginfo_eip`, `pgdir_walk`, `read_ebp`, linker symbols) live outside
this repository's source; they are modelled as explicit parameters
bundled in `Env`.  Machine words are `Nat` with explicit `% 2^32` where
the C performs 32-bit arithmetic.  All console output is reified into
the inductive type `Out`; printing order is preserved.
-/

namespace JOSMonitor

/-- Page size on x86, PGSIZE from inc/mmu.h (external header; the value
4096 is forced by the architecture and by the spec's page stepping). -/
def PGSIZE : Nat := 4096

/-- MAXARGS from kern/monitor.c: size of the argv buffer. -/
def MAXARGS : Nat := 16

/-- Modulus of 32-bit machine words (uint32_t / uintptr_t arithmetic). -/
def U32 : Nat := 2 ^ 32

/-- Modelled from the spec: page-table-entry permission bit PTE_P
(present), from the external header inc/mmu.h. -/
def PTE_P : Nat := 1

/-- Modelled from the spec: permission bit PTE_W (writable), from the
external header inc/mmu.h. -/
def PTE_W : Nat := 2

/-- Modelled from the spec: permission bit PTE_U (user-accessible), from
the external header inc/mmu.h. -/
def PTE_U : Nat := 4

/-- PTE_ADDR from inc/mmu.h (external header): mask a page-table entry
down to its page-aligned physical frame address (clear the low 12
permission bits, keep bits 12..31). -/
def PTE_ADDR (pte : Nat) : Nat := pte &&& 0xFFFFF000

/-- Result record of `debuginfo_eip` (struct Eipdebuginfo from
kern/kdebug.h, an external collaborator's interface). -/
structure Eipdebuginfo where
  eip_file : String
  eip_line : Nat
  eip_fn_name : String
  eip_fn_namelen : Nat
  eip_fn_addr : Nat
  deriving DecidableEq

/-- One console output event of the monitor (each constructor is one
cprintf text produced by kern/monitor.c, with its arguments). -/
inductive Out where
  /-- help: one "name - desc" line per registered command. -/
  | helpLine (name desc : String)
  /-- kerninfo output (linker symbols are external; collapsed to one
  marker since no claim concerns its text). -/
  | kerninfoOut
  /-- backtrace: the "Stack backtrace:" header. -/
  | btHeader
  /-- backtrace: one frame line "ebp .. eip .. args ..". -/
  | btFrame (ebp eip : Nat) (args : List Nat)
  /-- backtrace: the symbolic second line "file:line: fn+off". -/
  | btSym (file : String) (line : Nat) (fn : String) (namelen off : Nat)
  /-- showmappings usage message. -/
  | usage
  /-- showmappings rejection message "begin va .. greater than end". -/
  | rejectRange (b e : Nat)
  /-- showmappings: "va .. is not mapped". -/
  | notMapped (va : Nat)
  /-- showmappings: "va ..: pa PTE_P p PTE_W w PTE_U u". -/
  | mapped (va pa p w u : Nat)
  /-- runcmd: "Too many arguments" message. -/
  | tooMany
  /-- runcmd: "Unknown command" message echoing the first token. -/
  | unknown (cmd : String)
  deriving DecidableEq

/-- Environment bundling the external collaborators and machine state a
command handler may consult: memory (32-bit word read at a byte
address), the symbol resolver `debuginfo_eip` (returns 0 on success in
C, modelled as `Option`), the numeric parser `strtol`, the page walker
`pgdir_walk` already applied to the current page directory
(KADDR(rcr3())), the current frame pointer `read_ebp`, and loop fuel
for the unwinder and inspector loops (whose C originals may diverge). -/
structure Env where
  mem : Nat → Nat
  dbg : Nat → Option Eipdebuginfo
  parse : String → Nat
  walk : Nat → Option Nat
  ebp0 : Nat
  fuel : Nat

/-- Type of command handlers: argv and environment to console output
plus the C int return value; `none` models a handler whose internal
loop does not terminate within the environment's fuel. -/
def Handler : Type := List String → Env → Option (List Out × Int)

/-- Read of a 32-bit word from memory (values truncated to uint32_t). -/
def btRead (mem : Nat → Nat) (a : Nat) : Nat := mem a % U32

/-- Output of one backtrace iteration at frame pointer `ebp`: the frame
line from eip = word at ebp+4 and the five words at ebp+8..ebp+24
(((uint32_t*)ebp)[1+i] for i = 1..5), then, when `debuginfo_eip`
succeeds, the symbolic line whose offset is the uint32 difference
eip - info.eip_fn_addr. -/
def frameOut (mem : Nat → Nat) (dbg : Nat → Option Eipdebuginfo) (ebp : Nat) : List Out :=
  let eip := btRead mem (ebp + 4)
  let args := [btRead mem (ebp + 8), btRead mem (ebp + 12), btRead mem (ebp + 16),
    btRead mem (ebp + 20), btRead mem (ebp + 24)]
  match dbg eip with
  | some info =>
      [Out.btFrame ebp eip args,
       Out.btSym info.eip_file info.eip_line info.eip_fn_name info.eip_fn_namelen
         ((eip + (U32 - info.eip_fn_addr % U32)) % U32)]
  | none => [Out.btFrame ebp eip args]

/-- Byte addresses dereferenced by one backtrace iteration at `ebp`, in
program order: eip at ebp+4, five argument words, then the saved frame
pointer at ebp itself. -/
def frameReads (ebp : Nat) : List Nat :=
  [ebp + 4, ebp + 8, ebp + 12, ebp + 16, ebp + 20, ebp + 24, ebp]

/-- The `while (ebp)` loop of mon_backtrace, with fuel; returns the
emitted lines and the list of dereferenced addresses, or `none` when
the fuel runs out before the zero sentinel is reached. -/
def btLoop (mem : Nat → Nat) (dbg : Nat → Option Eipdebuginfo) :
    Nat → Nat → Option (List Out × List Nat)
  | 0, ebp => if ebp = 0 then some ([], []) else none
  | fuel + 1, ebp =>
    if ebp = 0 then some ([], [])
    else
      (btLoop mem dbg fuel (btRead mem ebp)).map
        (fun p => (frameOut mem dbg ebp ++ p.1, frameReads ebp ++ p.2))

/-- mon_backtrace from kern/monitor.c: header line, then the frame walk
starting at read_ebp(); always returns 0 when the walk completes. -/
def mon_backtrace : Handler := fun _argv env =>
  (btLoop env.mem env.dbg env.fuel env.ebp0).map (fun p => (Out.btHeader :: p.1, 0))

/-- Body of one mon_showmappings loop iteration at virtual address
`va`: pgdir_walk with alloc=0 returns the PTE location or NULL; a NULL
result or a clear present bit prints "not mapped", otherwise the masked
physical address and the three permission-bit values are printed. -/
def inspectPage (walk : Nat → Option Nat) (va : Nat) : Out :=
  match walk va with
  | none => Out.notMapped va
  | some pte =>
    if pte &&& PTE_P = 0 then Out.notMapped va
    else Out.mapped va (PTE_ADDR pte) (pte &&& PTE_P) (pte &&& PTE_W) (pte &&& PTE_U)

/-- The `for (va = begin; va <= end; va += PGSIZE)` loop of
mon_showmappings, with fuel; `va` is a uintptr_t so the increment wraps
modulo 2^32.  `none` means the fuel ran out (the C loop would still be
running). -/
def showLoop (walk : Nat → Option Nat) (e : Nat) : Nat → Nat → Option (List Out)
  | 0, _ => none
  | fuel + 1, va =>
    if va ≤ e then
      (showLoop walk e fuel ((va + PGSIZE) % U32)).map (fun rest => inspectPage walk va :: rest)
    else some []

/-- mon_showmappings from kern/monitor.c: arity check (argc must be 3),
strtol parse of both address arguments (strtol is external library
code, modelled by the abstract `parse` collaborator; the cast to
uintptr_t truncates modulo 2^32), begin>end rejection, then the
page-stepping loop. -/
def mon_showmappings : Handler := fun argv env =>
  match argv with
  | [_, a1, a2] =>
    let b := env.parse a1 % U32
    let e := env.parse a2 % U32
    if b > e then some ([Out.rejectRange b e], 0)
    else (showLoop env.walk e env.fuel b).map (fun outs => (outs, 0))
  | _ => some ([Out.usage], 0)

/-- Names and descriptions of the registered commands, in registry
order (the contents of the `commands` array; kept as a separate list so
mon_help can print it without referring to the handlers). -/
def commandTable : List (String × String) :=
  [("help", "Display this list of commands"),
   ("kerninfo", "Display information about the kernel"),
   ("backtrace", "Display information about the backtrace"),
   ("showmappings", "Display memory mappings for a range of virtual addresses")]

/-- mon_help from kern/monitor.c: one line per registry entry, in
order; returns 0. -/
def mon_help : Handler := fun _argv _env =>
  some (commandTable.map (fun p => Out.helpLine p.1 p.2), 0)

/-- mon_kerninfo from kern/monitor.c: prints fixed linker symbols
(external; collapsed to a single marker since no claim concerns its
text) and returns 0. -/
def mon_kerninfo : Handler := fun _argv _env => some ([Out.kerninfoOut], 0)

/-- One entry of the command registry (struct Command from
kern/monitor.c). -/
structure Command where
  name : String
  desc : String
  func : Handler

/-- The static command registry `commands` from kern/monitor.c, in
source order. -/
def commands : List Command :=
  [⟨"help", "Display this list of commands", mon_help⟩,
   ⟨"kerninfo", "Display information about the kernel", mon_kerninfo⟩,
   ⟨"backtrace", "Display information about the backtrace", mon_backtrace⟩,
   ⟨"showmappings", "Display memory mappings for a range of virtual addresses",
     mon_showmappings⟩]

/-- Whitespace set WHITESPACE = "\t\r\n " from kern/monitor.c. -/
def isWS (c : Char) : Bool := c = '\t' ∨ c = '\r' ∨ c = '\n' ∨ c = ' '

/-- The NUL character written over gobbled whitespace (`*buf++ = 0`). -/
def nulChar : Char := Char.ofNat 0

/-- The tokenizing loop of runcmd, one constructor case per character.
State: `acc` = argv entries saved so far (reversed), `cur` = characters
of the token currently being scanned (reversed), `inTok` = whether a
token scan is in progress, `zacc` = the processed prefix of the buffer
after its in-place mutation (reversed; gobbled whitespace is zeroed,
token characters are left in place).  A NUL terminates the buffer as in
C.  At the start of a new token, if MAXARGS-1 tokens are already saved
the loop reports "too many arguments" and stops, returning (as `.error`)
the tokens parsed so far, which are still intact in argv. -/
def tokGo (acc : List (List Char)) (cur : List Char) (inTok : Bool) (zacc : List Char) :
    List Char → Except (List (List Char)) (List (List Char) × List Char)
  | [] =>
    let acc' := if inTok then cur.reverse :: acc else acc
    .ok (acc'.reverse, zacc.reverse)
  | c :: cs =>
    if c = nulChar then
      let acc' := if inTok then cur.reverse :: acc else acc
      .ok (acc'.reverse, zacc.reverse)
    else if isWS c then
      let acc' := if inTok then cur.reverse :: acc else acc
      tokGo acc' [] false (nulChar :: zacc) cs
    else if inTok then
      tokGo acc (c :: cur) true (c :: zacc) cs
    else if acc.length = MAXARGS - 1 then .error acc.reverse
    else tokGo acc [c] true (c :: zacc) cs

/-- The dispatch half of runcmd: zero tokens is a no-op returning 0;
otherwise the first token is matched against the registry in order by
strcmp and the first matching handler is invoked with the full argv
(command name included); no match prints "Unknown command" and returns
0. -/
def dispatch (argv : List String) (env : Env) : Option (List Out × Int) :=
  match argv with
  | [] => some ([], 0)
  | a0 :: _ =>
    match commands.find? (fun c => c.name == a0) with
    | some c => c.func argv env
    | none => some ([Out.unknown a0], 0)

/-- runcmd from kern/monitor.c: tokenize the line buffer in place, then
dispatch.  The too-many-arguments report returns 0 without dispatching. -/
def runcmd (buf : List Char) (env : Env) : Option (List Out × Int) :=
  match tokGo [] [] false [] buf with
  | .error _ => some ([Out.tooMany], 0)
  | .ok (argv, _) => dispatch (argv.map fun t => String.mk t) env

/-- Outcome of running the REPL loop against a finite list of readline
results: it broke out at input index `i` (runcmd returned a negative
value there), it consumed every provided input and is still looping, or
the command at index `i` did not complete within the fuel. -/
inductive MonOutcome where
  | exited (i : Nat)
  | outOfInput
  | diverged (i : Nat)
  deriving DecidableEq

/-- The `while (1)` loop of monitor: read a line (a `none` readline
result skips the iteration without calling runcmd), run it, and break
only when runcmd returns a negative value.  Banner and prompt output
are pure console text and are not reified here; handler output is
already modelled in runcmd. -/
def monitorRun (env : Env) : Nat → List (Option (List Char)) → MonOutcome
  | _, [] => .outOfInput
  | i, none :: rest => monitorRun env (i + 1) rest
  | i, some buf :: rest =>
    match runcmd buf env with
    | none => .diverged i
    | some (_, r) => if r < 0 then .exited i else monitorRun env (i + 1) rest

/-- monitor from kern/monitor.c, applied to a finite prefix of the
readline input stream. -/
def monitor (env : Env) (inputs : List (Option (List Char))) : MonOutcome :=
  monitorRun env 0 inputs

/-! Spec-side definitions, written from the specification's words, for
comparison with the embedded code. -/

/-- Maximal runs of non-whitespace characters of a line, in order: the
token sequence the spec's tokenizer contract describes ("maximal runs
of non-whitespace as one token"). -/
def specTokens : List Char → List (List Char)
  | [] => []
  | c :: cs =>
    if isWS c then specTokens cs
    else
      match cs with
      | [] => [[c]]
      | d :: _ =>
        if isWS d then [c] :: specTokens cs
        else
          match specTokens cs with
          | [] => [[c]]
          | t :: ts => (c :: t) :: ts

/-- Buffer after the spec's zeroing: every whitespace character is
replaced by NUL, every other character left in place. -/
def zeroWhitespace (buf : List Char) : List Char :=
  buf.map fun c => if isWS c then nulChar else c

/-- A synthetic frame chain as the spec describes it: each listed frame
pointer is nonzero, fits in 32 bits, and its word 0 holds the next
listed frame pointer, the last one holding the zero sentinel. -/
def isChain (mem : Nat → Nat) : List Nat → Prop
  | [] => True
  | [f] => f ≠ 0 ∧ f < U32 ∧ mem f % U32 = 0
  | f :: g :: r => f ≠ 0 ∧ f < U32 ∧ mem f % U32 = g ∧ isChain mem (g :: r)

/-- Concatenated backtrace output expected for a frame chain. -/
def chainOut (mem : Nat → Nat) (dbg : Nat → Option Eipdebuginfo) : List Nat → List Out
  | [] => []
  | f :: r => frameOut mem dbg f ++ chainOut mem dbg r

/-- Concatenated list of addresses the unwinder dereferences along a
frame chain. -/
def chainReads : List Nat → List Nat
  | [] => []
  | f :: r => frameReads f ++ chainReads r

/-- Recognizer of primary backtrace frame lines. -/
def isFrameLine : Out → Bool
  | .btFrame _ _ _ => true
  | _ => false

/-- Environment with trivial collaborators, used to instantiate
universally quantified theorems at concrete inputs. -/
def testEnv : Env := ⟨fun _ => 0, fun _ => none, fun _ => 0, fun _ => none, 0, 5⟩

/-- Memory holding a synthetic three-frame chain 100 → 200 → 300 → 0,
with all other words zero. -/
def chainMem : Nat → Nat := fun a => if a = 100 then 200 else if a = 200 then 300 else 0

/-- Environment whose memory holds the synthetic chain and whose
initial frame pointer is its head. -/
def chainEnv : Env := { testEnv with mem := chainMem, ebp0 := 100, fuel := 3 }

/-- A concrete symbol-resolution record for witnesses. -/
def symInfo : Eipdebuginfo := ⟨"kern/init.c", 3, "test_backtrace", 14, 10⟩

/-! Helper lemmas. -/

/-- A single permission bit extracted by `&&&` is nonzero exactly when
the corresponding bit of the entry is set. -/
lemma and_two_pow_ne_zero (x i : Nat) : x &&& 2 ^ i ≠ 0 ↔ x.testBit i := by
  rw [Nat.and_two_pow]
  cases h : x.testBit i
  · simp
  · simp [(Nat.two_pow_pos i).ne']

/-- The physical address printed by the inspector is page aligned. -/
lemma PTE_ADDR_mod_PGSIZE (pte : Nat) : PTE_ADDR pte % PGSIZE = 0 := by
  have h12 : PGSIZE = 2 ^ 12 := by norm_num [PGSIZE]
  rw [PTE_ADDR, h12]
  apply Nat.eq_of_testBit_eq
  intro i
  rw [Nat.testBit_mod_two_pow, Nat.testBit_and, Nat.zero_testBit]
  by_cases hi : i < 12
  · have hm : Nat.testBit 0xFFFFF000 i = false := by interval_cases i <;> decide
    simp [hm]
  · simp [hi]

/-- Characterization of the mon_showmappings loop away from the 32-bit
wraparound region: with enough fuel it visits exactly the arithmetic
progression begin, begin+PGSIZE, ... of addresses not exceeding end,
in ascending order. -/
lemma showLoop_char (walk : Nat → Option Nat) (e : Nat) (he : e + PGSIZE < U32) :
    ∀ n b fuel : Nat, b ≤ e → (e - b) / PGSIZE = n → n + 2 ≤ fuel →
    showLoop walk e fuel b =
      some ((List.range (n + 1)).map (fun k => inspectPage walk (b + PGSIZE * k))) := by
  intro n
  induction n with
  | zero =>
    intro b fuel hb hn hf
    obtain ⟨m, rfl⟩ : ∃ m, fuel = m + 2 := ⟨fuel - 2, by omega⟩
    have hP : PGSIZE = 4096 := rfl
    have hlt : e - b < PGSIZE := by rw [hP] at hn ⊢; omega
    have hstep : (b + PGSIZE) % U32 = b + PGSIZE := Nat.mod_eq_of_lt (by omega)
    have hgt : ¬ (b + PGSIZE ≤ e) := by omega
    rw [showLoop, if_pos hb, hstep, showLoop, if_neg hgt]
    simp [List.range_succ]
  | succ n ih =>
    intro b fuel hb hn hf
    obtain ⟨m, rfl⟩ : ∃ m, fuel = m + 1 := ⟨fuel - 1, by omega⟩
    have hP : PGSIZE = 4096 := rfl
    have hge : PGSIZE ≤ e - b := by rw [hP] at hn ⊢; omega
    have hb' : b + PGSIZE ≤ e := by omega
    have hstep : (b + PGSIZE) % U32 = b + PGSIZE := Nat.mod_eq_of_lt (by omega)
    have hn' : (e - (b + PGSIZE)) / PGSIZE = n := by rw [hP] at hn ⊢; omega
    have hrec := ih (b + PGSIZE) m hb' hn' (by omega)
    rw [showLoop, if_pos hb, hstep, hrec]
    simp only [Option.map_some', Option.some.injEq]
    rw [List.range_succ_eq_map (n + 1)]
    simp only [List.map_cons, List.map_map]
    refine congrArg₂ List.cons (by simp) ?_
    apply List.map_congr_left
    intro k _
    have harg : b + PGSIZE + PGSIZE * k = b + PGSIZE * (k + 1) := by ring
    simp only [Function.comp_apply, Nat.succ_eq_add_one, harg]

/-! Claim theorems for the mapping inspector. -/

/-- C1 (amended): with exactly two parsed addresses begin ≤ end and no
32-bit wraparound (end + PGSIZE < 2^32), the inspector visits exactly
the addresses begin, begin + PGSIZE, begin + 2*PGSIZE, ... that do not
exceed end, in ascending order; when begin = end exactly one page is
inspected.  (The visited addresses are page aligned only when begin
is; see the counterexample for the claim as originally stated.) -/
theorem mon_showmappings_visits_progression (env : Env) (cmd a1 a2 : String)
    (hb : env.parse a1 % U32 ≤ env.parse a2 % U32)
    (he : env.parse a2 % U32 + PGSIZE < U32)
    (hf : (env.parse a2 % U32 - env.parse a1 % U32) / PGSIZE + 2 ≤ env.fuel) :
    mon_showmappings [cmd, a1, a2] env =
      some ((List.range ((env.parse a2 % U32 - env.parse a1 % U32) / PGSIZE + 1)).map
        (fun k => inspectPage env.walk (env.parse a1 % U32 + PGSIZE * k)), 0)
    ∧ (env.parse a1 % U32 = env.parse a2 % U32 →
        mon_showmappings [cmd, a1, a2] env = some ([inspectPage env.walk (env.parse a1 % U32)], 0)) := by
  have hloop := showLoop_char env.walk (env.parse a2 % U32) he
    ((env.parse a2 % U32 - env.parse a1 % U32) / PGSIZE) (env.parse a1 % U32) env.fuel hb rfl hf
  constructor
  · simp only [mon_showmappings]
    rw [if_neg (by omega), hloop, Option.map_some']
  · intro heq
    have h0 : (env.parse a2 % U32 - env.parse a1 % U32) / PGSIZE = 0 := by
      rw [heq]; simp
    rw [h0] at hloop
    simp only [mon_showmappings]
    rw [if_neg (by omega), hloop, Option.map_some']
    simp [List.range_succ]

/-- C1 witness: a single-page invocation, begin = end = 0x1000. -/
theorem mon_showmappings_progression_witness :
    mon_showmappings ["showmappings", "0x1000", "0x1000"]
        { testEnv with parse := fun _ => 0x1000 } =
      some ([inspectPage ({ testEnv with parse := fun _ => 0x1000 } : Env).walk
        (({ testEnv with parse := fun _ => 0x1000 } : Env).parse "0x1000" % U32)], 0) :=
  (mon_showmappings_visits_progression _ "showmappings" "0x1000" "0x1000"
    (by decide) (by decide) (by decide)).2 (by decide)

/-- C1 counterexample: for begin 0x800 and end 0x1800 the page-aligned
address 0x1000 lies between begin and end but is never inspected; the
loop visits 0x800 and 0x1800 instead (the claim's "every page-aligned
address from begin to end" fails for unaligned begin). -/
theorem mon_showmappings_unaligned_counterexample :
    mon_showmappings ["showmappings", "0x800", "0x1800"]
        { testEnv with parse := fun s => if s == "0x800" then 0x800 else 0x1800 } =
      some ([Out.notMapped 0x800, Out.notMapped 0x1800], 0)
    ∧ 0x800 ≤ 0x1000 ∧ 0x1000 ≤ 0x1800 ∧ 0x1000 % PGSIZE = 0
    ∧ Out.notMapped 0x1000 ∉ [Out.notMapped 0x800, Out.notMapped 0x1800]
    ∧ inspectPage (fun _ => none) 0x1000 = Out.notMapped 0x1000 := by
  refine ⟨by decide, by decide, by decide, by decide, by decide, by decide⟩

/-- C3: for an inspected page whose entry exists and has the present
bit set, the inspector prints the physical address masked to the
page-aligned frame together with the present, writable and
user-accessible bits, each flag nonzero exactly when the bit is set;
in particular all three flags are reported true when all three bits
are set. -/
theorem inspectPage_present_reports_flags (walk : Nat → Option Nat) (va pte : Nat)
    (hw : walk va = some pte) (hp : pte &&& PTE_P ≠ 0) :
    inspectPage walk va =
      Out.mapped va (PTE_ADDR pte) (pte &&& PTE_P) (pte &&& PTE_W) (pte &&& PTE_U)
    ∧ PTE_ADDR pte % PGSIZE = 0
    ∧ (pte &&& PTE_P ≠ 0 ↔ pte.testBit 0)
    ∧ (pte &&& PTE_W ≠ 0 ↔ pte.testBit 1)
    ∧ (pte &&& PTE_U ≠ 0 ↔ pte.testBit 2)
    ∧ (pte.testBit 0 → pte.testBit 1 → pte.testBit 2 →
        pte &&& PTE_P ≠ 0 ∧ pte &&& PTE_W ≠ 0 ∧ pte &&& PTE_U ≠ 0) := by
  have h0 : pte &&& PTE_P ≠ 0 ↔ pte.testBit 0 := by
    rw [show PTE_P = 2 ^ 0 from rfl]; exact and_two_pow_ne_zero pte 0
  have h1 : pte &&& PTE_W ≠ 0 ↔ pte.testBit 1 := by
    rw [show PTE_W = 2 ^ 1 from rfl]; exact and_two_pow_ne_zero pte 1
  have h2 : pte &&& PTE_U ≠ 0 ↔ pte.testBit 2 := by
    rw [show PTE_U = 2 ^ 2 from rfl]; exact and_two_pow_ne_zero pte 2
  refine ⟨?_, PTE_ADDR_mod_PGSIZE pte, h0, h1, h2, ?_⟩
  · simp only [inspectPage, hw]
    rw [if_neg hp]
  · intro b0 b1 b2
    exact ⟨h0.mpr b0, h1.mpr b1, h2.mpr b2⟩

/-- C3 witness: an entry with value 0x2007 (frame 0x2000, P, W and U
all set) at virtual address 0x1000. -/
theorem inspectPage_present_witness :
    inspectPage (fun _ => some 0x2007) 0x1000 =
      Out.mapped 0x1000 (PTE_ADDR 0x2007) (0x2007 &&& PTE_P) (0x2007 &&& PTE_W)
        (0x2007 &&& PTE_U)
    ∧ PTE_ADDR 0x2007 % PGSIZE = 0
    ∧ ((0x2007 : Nat) &&& PTE_P ≠ 0 ↔ (0x2007 : Nat).testBit 0)
    ∧ ((0x2007 : Nat) &&& PTE_W ≠ 0 ↔ (0x2007 : Nat).testBit 1)
    ∧ ((0x2007 : Nat) &&& PTE_U ≠ 0 ↔ (0x2007 : Nat).testBit 2)
    ∧ ((0x2007 : Nat).testBit 0 → (0x2007 : Nat).testBit 1 → (0x2007 : Nat).testBit 2 →
        (0x2007 : Nat) &&& PTE_P ≠ 0 ∧ (0x2007 : Nat) &&& PTE_W ≠ 0
          ∧ (0x2007 : Nat) &&& PTE_U ≠ 0) :=
  inspectPage_present_reports_flags (fun _ => some 0x2007) 0x1000 0x2007 rfl (by decide)

/-- C5: a showmappings invocation whose token count is not 3 prints
exactly the usage message and returns 0 (continue) with no page
inspected; one whose parsed begin exceeds its parsed end prints exactly
the rejection message and returns 0 with no page inspected. -/
theorem mon_showmappings_rejects (env : Env) :
    (∀ argv : List String, argv.length ≠ 3 →
        mon_showmappings argv env = some ([Out.usage], 0))
    ∧ (∀ cmd a1 a2 : String, env.parse a2 % U32 < env.parse a1 % U32 →
        mon_showmappings [cmd, a1, a2] env =
          some ([Out.rejectRange (env.parse a1 % U32) (env.parse a2 % U32)], 0)) := by
  constructor
  · intro argv h
    match argv with
    | [] => rfl
    | [_] => rfl
    | [_, _] => rfl
    | [_, _, _] => exact absurd rfl h
    | _ :: _ :: _ :: _ :: _ => rfl
  · intro cmd a1 a2 h
    simp only [mon_showmappings]
    rw [if_pos h]

/-- C5 witness: a one-token invocation, and an invocation whose parsed
begin (2) exceeds its parsed end (1). -/
theorem mon_showmappings_rejects_witness :
    mon_showmappings ["showmappings"] testEnv = some ([Out.usage], 0)
    ∧ mon_showmappings ["showmappings", "aa", "a"]
        { testEnv with parse := fun s => s.length } =
      some ([Out.rejectRange
        (({ testEnv with parse := fun s => s.length } : Env).parse "aa" % U32)
        (({ testEnv with parse := fun s => s.length } : Env).parse "a" % U32)], 0) :=
  ⟨(mon_showmappings_rejects testEnv).1 ["showmappings"] (by decide),
   (mon_showmappings_rejects _).2 "showmappings" "aa" "a" (by decide)⟩

/-- C10: the per-page loop terminates for every begin ≤ end with
end + PGSIZE < 2^32; but with end = 0xffffffff (an accepted input,
e.g. begin 0xfffff000) every 32-bit address satisfies va ≤ end, so the
wrapping increment never exits the loop and no amount of fuel
completes it. -/
theorem showLoop_terminates_iff_no_wraparound :
    (∀ (walk : Nat → Option Nat) (b e : Nat), b ≤ e → e + PGSIZE < U32 →
        ∃ fuel outs, showLoop walk e fuel b = some outs)
    ∧ (∀ (walk : Nat → Option Nat) (fuel va : Nat), va < U32 →
        showLoop walk 0xffffffff fuel va = none) := by
  constructor
  · intro walk b e hb he
    exact ⟨(e - b) / PGSIZE + 2, _, showLoop_char walk e he _ b _ hb rfl (by omega)⟩
  · intro walk fuel
    induction fuel with
    | zero => intro va _; rfl
    | succ m ih =>
      intro va hva
      have hU : U32 = 4294967296 := by norm_num [U32]
      simp only [showLoop]
      rw [if_pos (by omega), ih ((va + PGSIZE) % U32) (Nat.mod_lt _ (by norm_num [U32]))]
      rfl

/-- C10 witness: the loop completes for begin = end = 0x1000, and runs
out of any fuel for begin 0xfffff000, end 0xffffffff. -/
theorem showLoop_wraparound_witness :
    (∃ fuel outs, showLoop (fun _ => none) 0x1000 fuel 0x1000 = some outs)
    ∧ showLoop (fun _ => none) 0xffffffff 7 0xfffff000 = none :=
  ⟨showLoop_terminates_iff_no_wraparound.1 (fun _ => none) 0x1000 0x1000 (by decide) (by decide),
   showLoop_terminates_iff_no_wraparound.2 (fun _ => none) 7 0xfffff000 (by decide)⟩

/-! Stack unwinder lemmas and claim theorems. -/

/-- The unwinder loop is a completed no-op at the zero sentinel,
whatever fuel remains. -/
lemma btLoop_zero_ebp (mem : Nat → Nat) (dbg : Nat → Option Eipdebuginfo) (fuel : Nat) :
    btLoop mem dbg fuel 0 = some ([], []) := by
  cases fuel <;> simp [btLoop]

/-- Along a synthetic frame chain the unwinder loop completes and
produces exactly the concatenated per-frame output and reads. -/
lemma btLoop_chain (mem : Nat → Nat) (dbg : Nat → Option Eipdebuginfo) :
    ∀ (r : List Nat) (f fuel : Nat), isChain mem (f :: r) → (f :: r).length ≤ fuel →
    btLoop mem dbg fuel f = some (chainOut mem dbg (f :: r), chainReads (f :: r)) := by
  intro r
  induction r with
  | nil =>
    intro f fuel hc hl
    simp only [isChain] at hc
    obtain ⟨hf0, _, hsent⟩ := hc
    obtain ⟨m, rfl⟩ : ∃ m, fuel = m + 1 := ⟨fuel - 1, by simp at hl; omega⟩
    rw [btLoop, if_neg hf0, show btRead mem f = 0 from hsent, btLoop_zero_ebp]
    simp [chainOut, chainReads]
  | cons g r' ih =>
    intro f fuel hc hl
    simp only [isChain] at hc
    obtain ⟨hf0, _, hlink, hrest⟩ := hc
    obtain ⟨m, rfl⟩ : ∃ m, fuel = m + 1 := ⟨fuel - 1, by simp at hl; omega⟩
    rw [btLoop, if_neg hf0, show btRead mem f = g from hlink,
      ih g m hrest (by simp at hl ⊢; omega)]
    simp [chainOut, chainReads]

/-- Filtering one frame's output down to primary frame lines leaves
exactly its one primary line, whether or not symbol resolution
succeeded. -/
lemma frameOut_filter (mem : Nat → Nat) (dbg : Nat → Option Eipdebuginfo) (ebp : Nat) :
    (frameOut mem dbg ebp).filter isFrameLine =
      [Out.btFrame ebp (btRead mem (ebp + 4))
        [btRead mem (ebp + 8), btRead mem (ebp + 12), btRead mem (ebp + 16),
         btRead mem (ebp + 20), btRead mem (ebp + 24)]] := by
  cases hd : dbg (btRead mem (ebp + 4)) <;> simp [frameOut, hd, isFrameLine]

/-- Chain output filtered to primary lines is one line per frame, in
chain order, built from the words above each frame pointer. -/
lemma chainOut_filter (mem : Nat → Nat) (dbg : Nat → Option Eipdebuginfo) :
    ∀ l : List Nat, (chainOut mem dbg l).filter isFrameLine =
      l.map (fun g => Out.btFrame g (btRead mem (g + 4))
        [btRead mem (g + 8), btRead mem (g + 12), btRead mem (g + 16),
         btRead mem (g + 20), btRead mem (g + 24)]) := by
  intro l
  induction l with
  | nil => rfl
  | cons f r ih =>
    simp only [chainOut, List.filter_append, frameOut_filter, ih, List.map_cons]
    rfl

/-- Every frame pointer listed in a chain is nonzero. -/
lemma chain_mem_ne_zero (mem : Nat → Nat) :
    ∀ l : List Nat, isChain mem l → ∀ g ∈ l, g ≠ 0 := by
  intro l
  induction l with
  | nil => intro _ g hg; cases hg
  | cons f r ih =>
    intro hc g hg
    match r, hc with
    | [], ⟨hf0, _, _⟩ =>
      rcases List.mem_singleton.mp hg with rfl
      exact hf0
    | g' :: r', ⟨hf0, _, _, hrest⟩ =>
      rcases List.mem_cons.mp hg with rfl | hg'
      · exact hf0
      · exact ih hrest g hg'

/-- Every address the unwinder dereferences along a chain lies at one
of the seven fixed offsets above some nonzero chained frame pointer. -/
lemma chainReads_form (mem : Nat → Nat) :
    ∀ l : List Nat, isChain mem l →
      ∀ a ∈ chainReads l, ∃ g ∈ l, g ≠ 0 ∧ ∃ k, k ≤ 6 ∧ a = g + 4 * k := by
  intro l
  induction l with
  | nil => intro _ a ha; cases ha
  | cons f r ih =>
    intro hc a ha
    have hf0 : f ≠ 0 := chain_mem_ne_zero mem (f :: r) hc f (List.mem_cons_self f r)
    have hrest : isChain mem r := by
      match r, hc with
      | [], _ => trivial
      | g' :: r', ⟨_, _, _, hrest⟩ => exact hrest
    rcases List.mem_append.mp ha with hin | hin
    · simp only [frameReads, List.mem_cons, List.not_mem_nil, or_false] at hin
      rcases hin with h | h | h | h | h | h | h
      · exact ⟨f, List.mem_cons_self f r, hf0, 1, by omega, by omega⟩
      · exact ⟨f, List.mem_cons_self f r, hf0, 2, by omega, by omega⟩
      · exact ⟨f, List.mem_cons_self f r, hf0, 3, by omega, by omega⟩
      · exact ⟨f, List.mem_cons_self f r, hf0, 4, by omega, by omega⟩
      · exact ⟨f, List.mem_cons_self f r, hf0, 5, by omega, by omega⟩
      · exact ⟨f, List.mem_cons_self f r, hf0, 6, by omega, by omega⟩
      · exact ⟨f, List.mem_cons_self f r, hf0, 0, by omega, by omega⟩
    · obtain ⟨g, hg, hg0, k, hk, rfl⟩ := ih hrest a hin
      exact ⟨g, List.mem_cons_of_mem f hg, hg0, k, hk, rfl⟩

/-- C2: on a synthetic frame chain of length N (each frame's word 0
holding the previous frame pointer, the last link zero), the unwinder
emits exactly N primary frame lines, each built from the return
address one word above the frame pointer and the five words above
that; it stops at the zero sentinel, and every address it dereferences
is at offset 0..24 above some nonzero chained frame pointer — in
particular it never dereferences through a frame pointer of zero. -/
theorem mon_backtrace_chain (env : Env) (f : Nat) (r : List Nat) (argv : List String)
    (hc : isChain env.mem (f :: r)) (hfuel : (f :: r).length ≤ env.fuel)
    (hebp : env.ebp0 = f) :
    mon_backtrace argv env = some (Out.btHeader :: chainOut env.mem env.dbg (f :: r), 0)
    ∧ btLoop env.mem env.dbg env.fuel f =
        some (chainOut env.mem env.dbg (f :: r), chainReads (f :: r))
    ∧ (chainOut env.mem env.dbg (f :: r)).filter isFrameLine =
        (f :: r).map (fun g => Out.btFrame g (btRead env.mem (g + 4))
          [btRead env.mem (g + 8), btRead env.mem (g + 12), btRead env.mem (g + 16),
           btRead env.mem (g + 20), btRead env.mem (g + 24)])
    ∧ ((chainOut env.mem env.dbg (f :: r)).filter isFrameLine).length = (f :: r).length
    ∧ (∀ a ∈ chainReads (f :: r), ∃ g ∈ f :: r, g ≠ 0 ∧ ∃ k, k ≤ 6 ∧ a = g + 4 * k)
    ∧ 0 ∉ chainReads (f :: r) := by
  have hb := btLoop_chain env.mem env.dbg r f env.fuel hc hfuel
  have hreads := chainReads_form env.mem (f :: r) hc
  refine ⟨?_, hb, chainOut_filter env.mem env.dbg (f :: r), ?_, hreads, ?_⟩
  · simp only [mon_backtrace, hebp, hb, Option.map_some']
  · rw [chainOut_filter env.mem env.dbg (f :: r), List.length_map]
  · intro h0
    obtain ⟨g, _, hg0, k, _, heq⟩ := hreads 0 h0
    omega

/-- C2 witness: the three-frame chain 100 → 200 → 300 → 0 yields a
header plus the chain output, with exactly three primary frame lines. -/
theorem mon_backtrace_chain_witness :
    mon_backtrace [] chainEnv =
      some (Out.btHeader :: chainOut chainEnv.mem chainEnv.dbg [100, 200, 300], 0)
    ∧ ((chainOut chainEnv.mem chainEnv.dbg [100, 200, 300]).filter isFrameLine).length = 3 :=
  have h := mon_backtrace_chain chainEnv 100 [200, 300] []
    ⟨by decide, by decide, by decide, by decide, by decide, by decide, by decide,
     by decide, by decide⟩ (by decide) rfl
  ⟨h.1, h.2.2.2.1⟩

/-- C6: each visited frame always contributes its primary line first;
when symbol resolution fails nothing more is emitted for that frame,
and when it succeeds exactly one additional symbolic line is emitted
whose offset is the 32-bit difference between the return address and
the resolved function start (equal to the plain difference whenever
the function start does not exceed the return address). -/
theorem frameOut_symbol_resolution (mem : Nat → Nat) (dbg : Nat → Option Eipdebuginfo)
    (ebp : Nat) :
    (frameOut mem dbg ebp).head? = some (Out.btFrame ebp (btRead mem (ebp + 4))
        [btRead mem (ebp + 8), btRead mem (ebp + 12), btRead mem (ebp + 16),
         btRead mem (ebp + 20), btRead mem (ebp + 24)])
    ∧ (dbg (btRead mem (ebp + 4)) = none →
        frameOut mem dbg ebp = [Out.btFrame ebp (btRead mem (ebp + 4))
          [btRead mem (ebp + 8), btRead mem (ebp + 12), btRead mem (ebp + 16),
           btRead mem (ebp + 20), btRead mem (ebp + 24)]])
    ∧ (∀ info, dbg (btRead mem (ebp + 4)) = some info →
        frameOut mem dbg ebp = [Out.btFrame ebp (btRead mem (ebp + 4))
          [btRead mem (ebp + 8), btRead mem (ebp + 12), btRead mem (ebp + 16),
           btRead mem (ebp + 20), btRead mem (ebp + 24)],
          Out.btSym info.eip_file info.eip_line info.eip_fn_name info.eip_fn_namelen
            ((btRead mem (ebp + 4) + (U32 - info.eip_fn_addr % U32)) % U32)]
        ∧ (info.eip_fn_addr ≤ btRead mem (ebp + 4) →
            (btRead mem (ebp + 4) + (U32 - info.eip_fn_addr % U32)) % U32 =
              btRead mem (ebp + 4) - info.eip_fn_addr)) := by
  refine ⟨?_, ?_, ?_⟩
  · cases hd : dbg (btRead mem (ebp + 4)) <;> simp [frameOut, hd]
  · intro hd; simp [frameOut, hd]
  · intro info hd
    constructor
    · simp [frameOut, hd]
    · intro hle
      have hU : U32 = 4294967296 := by norm_num [U32]
      have hx : btRead mem (ebp + 4) < U32 := Nat.mod_lt _ (by norm_num [U32])
      rw [hU] at *
      omega

/-- C6 witness: with return address 12, resolution success at function
start 10 emits the symbolic line with offset 2, while resolution
failure leaves only the primary line. -/
theorem frameOut_symbol_witness :
    frameOut (fun a => a) (fun e => if e = 12 then some symInfo else none) 8 =
      [Out.btFrame 8 (btRead (fun a => a) (8 + 4))
        [btRead (fun a => a) (8 + 8), btRead (fun a => a) (8 + 12),
         btRead (fun a => a) (8 + 16), btRead (fun a => a) (8 + 20),
         btRead (fun a => a) (8 + 24)],
       Out.btSym symInfo.eip_file symInfo.eip_line symInfo.eip_fn_name symInfo.eip_fn_namelen
         ((btRead (fun a => a) (8 + 4) + (U32 - symInfo.eip_fn_addr % U32)) % U32)]
    ∧ (btRead (fun a => a) (8 + 4) + (U32 - symInfo.eip_fn_addr % U32)) % U32 =
        btRead (fun a => a) (8 + 4) - symInfo.eip_fn_addr
    ∧ frameOut (fun a => a) (fun _ => none) 8 =
        [Out.btFrame 8 (btRead (fun a => a) (8 + 4))
          [btRead (fun a => a) (8 + 8), btRead (fun a => a) (8 + 12),
           btRead (fun a => a) (8 + 16), btRead (fun a => a) (8 + 20),
           btRead (fun a => a) (8 + 24)]] :=
  have h := (frameOut_symbol_resolution (fun a => a)
    (fun e => if e = 12 then some symInfo else none) 8).2.2 symInfo (by decide)
  ⟨h.1, h.2 (by decide),
   (frameOut_symbol_resolution (fun a => a) (fun _ => none) 8).2.1 rfl⟩

/-! Dispatcher and REPL claim theorems. -/

/-- C7: dispatch on zero tokens is a no-op returning 0 (continue);
dispatch on a first token matching no registered name prints exactly
the unknown-command message echoing that token and returns 0, invoking
no handler; dispatch on a matching name invokes the first matching
registry entry's handler on the full token list (command name as token
0) and propagates its control signal. -/
theorem dispatch_behavior (env : Env) (a0 : String) (rest : List String) :
    dispatch [] env = some ([], 0)
    ∧ (commands.find? (fun c => c.name == a0) = none →
        dispatch (a0 :: rest) env = some ([Out.unknown a0], 0))
    ∧ (∀ c, commands.find? (fun c2 => c2.name == a0) = some c →
        dispatch (a0 :: rest) env = c.func (a0 :: rest) env ∧ c.name = a0) := by
  refine ⟨rfl, ?_, ?_⟩
  · intro h; simp [dispatch, h]
  · intro c h
    have hp := List.find?_some h
    exact ⟨by simp [dispatch, h], eq_of_beq hp⟩

/-- C7 witness: the empty line, an unregistered name, and the
registered name "help". -/
theorem dispatch_behavior_witness :
    dispatch [] testEnv = some ([], 0)
    ∧ dispatch ["nosuch"] testEnv = some ([Out.unknown "nosuch"], 0)
    ∧ dispatch ["help"] testEnv = mon_help ["help"] testEnv :=
  have h1 := dispatch_behavior testEnv "nosuch" []
  have h2 := dispatch_behavior testEnv "help" []
  ⟨h1.1, h1.2.1 rfl,
   (h2.2.2 ⟨"help", "Display this list of commands", mon_help⟩ rfl).1⟩

/-- Every registered handler returns 0 whenever it completes: no
built-in command ever signals the monitor to stop. -/
lemma handlers_ret (c : Command) (hc : c ∈ commands) (argv : List String) (env : Env)
    (outs : List Out) (r : Int) (h : c.func argv env = some (outs, r)) : r = 0 := by
  simp only [commands, List.mem_cons, List.not_mem_nil, or_false] at hc
  rcases hc with rfl | rfl | rfl | rfl
  · simp only [mon_help, Option.some.injEq, Prod.mk.injEq] at h
    exact h.2.symm
  · simp only [mon_kerninfo, Option.some.injEq, Prod.mk.injEq] at h
    exact h.2.symm
  · cases hbt : btLoop env.mem env.dbg env.fuel env.ebp0 with
    | none =>
      simp only [mon_backtrace, hbt, Option.map_none'] at h
      exact Option.noConfusion h
    | some p =>
      simp only [mon_backtrace, hbt, Option.map_some', Option.some.injEq,
        Prod.mk.injEq] at h
      exact h.2.symm
  · rcases argv with _ | ⟨x0, _ | ⟨x1, _ | ⟨x2, _ | ⟨x3, rest⟩⟩⟩⟩
    · simp only [mon_showmappings, Option.some.injEq, Prod.mk.injEq] at h
      exact h.2.symm
    · simp only [mon_showmappings, Option.some.injEq, Prod.mk.injEq] at h
      exact h.2.symm
    · simp only [mon_showmappings, Option.some.injEq, Prod.mk.injEq] at h
      exact h.2.symm
    · simp only [mon_showmappings] at h
      split at h
      · simp only [Option.some.injEq, Prod.mk.injEq] at h
        exact h.2.symm
      · cases hs : showLoop env.walk (env.parse x2 % U32) env.fuel (env.parse x1 % U32) with
        | none => rw [hs, Option.map_none'] at h; cases h
        | some outs2 =>
          rw [hs, Option.map_some'] at h
          simp only [Option.some.injEq, Prod.mk.injEq] at h
          exact h.2.symm
    · simp only [mon_showmappings, Option.some.injEq, Prod.mk.injEq] at h
      exact h.2.symm

/-- runcmd returns 0 whenever it completes, on every path: too many
arguments, empty line, unknown command, or a completed handler. -/
lemma runcmd_ret (buf : List Char) (env : Env) (outs : List Out) (r : Int)
    (h : runcmd buf env = some (outs, r)) : r = 0 := by
  cases ht : tokGo [] [] false [] buf with
  | error ts =>
    simp only [runcmd, ht, Option.some.injEq, Prod.mk.injEq] at h
    exact h.2.symm
  | ok p =>
    obtain ⟨argv, zbuf⟩ := p
    simp only [runcmd, ht] at h
    cases hargv : argv.map (fun t => String.mk t) with
    | nil =>
      rw [hargv] at h
      simp only [dispatch, Option.some.injEq, Prod.mk.injEq] at h
      exact h.2.symm
    | cons a0 rest2 =>
      rw [hargv] at h
      cases hf : commands.find? (fun c => c.name == a0) with
      | none =>
        simp only [dispatch, hf, Option.some.injEq, Prod.mk.injEq] at h
        exact h.2.symm
      | some c =>
        simp only [dispatch, hf] at h
        exact handlers_ret c (List.mem_of_find?_eq_some hf) _ env outs r h

/-- The REPL never breaks out of its loop with the built-in registry,
whatever the input stream. -/
lemma monitorRun_no_exit (env : Env) :
    ∀ (inputs : List (Option (List Char))) (j i : Nat),
      monitorRun env j inputs ≠ MonOutcome.exited i := by
  intro inputs
  induction inputs with
  | nil => intro j i h; simp [monitorRun] at h
  | cons x rest ih =>
    intro j i h
    cases x with
    | none =>
      simp only [monitorRun] at h
      exact ih (j + 1) i h
    | some buf =>
      cases hr : runcmd buf env with
      | none =>
        simp only [monitorRun, hr] at h
        exact MonOutcome.noConfusion h
      | some p =>
        obtain ⟨outs, r⟩ := p
        have hr0 : r = 0 := runcmd_ret buf env outs r hr
        subst hr0
        simp only [monitorRun, hr] at h
        rw [if_neg (by omega)] at h
        exact ih (j + 1) i h

/-- C9: the REPL loop can terminate only when a dispatched handler
returns the stop signal (a negative value); no built-in handler ever
does, so the loop never exits — in particular not on unknown commands
or usage errors — and a missing input line skips the iteration without
invoking the dispatcher. -/
theorem monitor_stops_only_on_stop (env : Env) (inputs : List (Option (List Char)))
    (i : Nat) :
    (∀ c ∈ commands, ∀ (argv : List String) (env2 : Env) (outs : List Out) (r : Int),
        c.func argv env2 = some (outs, r) → r = 0)
    ∧ monitor env inputs ≠ MonOutcome.exited i
    ∧ (∀ (j : Nat) (rest : List (Option (List Char))),
        monitorRun env j (none :: rest) = monitorRun env (j + 1) rest) := by
  exact ⟨fun c hc argv env2 outs r h => handlers_ret c hc argv env2 outs r h,
    monitorRun_no_exit env inputs 0 i, fun j rest => by simp [monitorRun]⟩

/-- C9 witness: a concrete session with a valid command, an end of
input, and an unknown command never exits the loop. -/
theorem monitor_stops_witness :
    monitor testEnv [some (String.toList "help"), none, some (String.toList "nosuch")] ≠
      MonOutcome.exited 0
    ∧ monitorRun testEnv 0 [none] = monitorRun testEnv 1 [] :=
  have h := monitor_stops_only_on_stop testEnv
    [some (String.toList "help"), none, some (String.toList "nosuch")] 0
  ⟨h.2.1, h.2.2 0 []⟩

/-! Tokenizer lemmas and claim theorems. -/

/-- A leading whitespace character does not contribute a token. -/
lemma specTokens_cons_of_pos (c : Char) (cs : List Char) (hc : isWS c = true) :
    specTokens (c :: cs) = specTokens cs := by
  simp [specTokens, hc]

/-- A leading non-whitespace character starts the first maximal run. -/
lemma specTokens_cons_of_neg (c : Char) (cs : List Char) (hc : isWS c = false) :
    specTokens (c :: cs) =
      ((c :: cs).takeWhile (fun x => !isWS x)) ::
        specTokens ((c :: cs).dropWhile (fun x => !isWS x)) := by
  induction cs generalizing c with
  | nil => simp [specTokens, hc]
  | cons d cs' ih =>
    by_cases hd : isWS d
    · simp [specTokens, hc, hd, List.takeWhile_cons, List.dropWhile_cons]
    · have hd' : isWS d = false := by simpa using hd
      have hih := ih d hd'
      rw [List.takeWhile_cons, List.dropWhile_cons] at hih
      simp only [hd', Bool.not_false, if_true] at hih
      conv_lhs => rw [specTokens]
      simp only [hc, hd', Bool.false_eq_true, if_false, hih, List.takeWhile_cons,
        List.dropWhile_cons, Bool.not_false, if_true]

/-- An all-whitespace line has no maximal non-whitespace run. -/
lemma specTokens_all_ws (buf : List Char) (h : ∀ c ∈ buf, isWS c = true) :
    specTokens buf = [] := by
  induction buf with
  | nil => rfl
  | cons c cs ih =>
    rw [specTokens_cons_of_pos c cs (h c (List.mem_cons_self c cs))]
    exact ih fun d hd => h d (List.mem_cons_of_mem c hd)

/-- Zeroing leaves a non-whitespace prefix unchanged. -/
lemma zeroWhitespace_takeWhile (l : List Char) :
    zeroWhitespace (l.takeWhile fun c => !isWS c) = l.takeWhile fun c => !isWS c := by
  induction l with
  | nil => rfl
  | cons c cs ih =>
    rw [List.takeWhile_cons]
    by_cases hc : isWS c
    · simp [hc, zeroWhitespace]
    · simp only [hc, Bool.not_false, if_true, zeroWhitespace, List.map_cons]
      rw [if_neg (by simp [hc])]
      simpa [zeroWhitespace] using ih

/-- Zeroing a buffer splits at the end of its non-whitespace prefix. -/
lemma zeroWhitespace_split (l : List Char) :
    zeroWhitespace l =
      (l.takeWhile fun c => !isWS c) ++ zeroWhitespace (l.dropWhile fun c => !isWS c) := by
  conv_lhs => rw [← List.takeWhile_append_dropWhile (p := fun c => !isWS c) (l := l)]
  simp only [zeroWhitespace, List.map_append]
  rw [show List.map (fun c => if isWS c = true then nulChar else c)
      (l.takeWhile fun c => !isWS c) = zeroWhitespace (l.takeWhile fun c => !isWS c) from rfl,
    zeroWhitespace_takeWhile]

/-- Central tokenizer characterization: on a NUL-free buffer the
runcmd tokenizing loop, in either mode, produces exactly the maximal
non-whitespace runs (continuing the current token in mid-token mode),
zeroes every whitespace character of the consumed buffer, and reports
"too many arguments" precisely when the total token count would exceed
MAXARGS - 1, keeping the first MAXARGS - 1 tokens. -/
lemma tokGo_spec (buf : List Char) (hnul : nulChar ∉ buf) :
    (∀ (acc : List (List Char)) (cur zacc : List Char), acc.length ≤ 15 →
      tokGo acc cur false zacc buf =
        if 16 ≤ acc.length + (specTokens buf).length
        then Except.error (acc.reverse ++ (specTokens buf).take (15 - acc.length))
        else Except.ok (acc.reverse ++ specTokens buf, zacc.reverse ++ zeroWhitespace buf))
    ∧ (∀ (acc : List (List Char)) (cur zacc : List Char), acc.length ≤ 14 →
      tokGo acc cur true zacc buf =
        if 16 ≤ acc.length +
            ((cur.reverse ++ buf.takeWhile fun x => !isWS x) ::
              specTokens (buf.dropWhile fun x => !isWS x)).length
        then Except.error (acc.reverse ++
          ((cur.reverse ++ buf.takeWhile fun x => !isWS x) ::
            specTokens (buf.dropWhile fun x => !isWS x)).take (15 - acc.length))
        else Except.ok (acc.reverse ++
          (cur.reverse ++ buf.takeWhile fun x => !isWS x) ::
            specTokens (buf.dropWhile fun x => !isWS x),
          zacc.reverse ++ (buf.takeWhile fun x => !isWS x) ++
            zeroWhitespace (buf.dropWhile fun x => !isWS x))) := by
  induction buf with
  | nil =>
    refine ⟨fun acc cur zacc hacc => ?_, fun acc cur zacc hacc => ?_⟩
    · rw [tokGo]
      simp only [specTokens, List.length_nil, Nat.add_zero, zeroWhitespace, List.map_nil,
        List.append_nil]
      rw [if_neg (show ¬ 16 ≤ acc.length by omega)]
      simp
    · rw [tokGo]
      simp only [List.takeWhile_nil, List.dropWhile_nil, specTokens, List.append_nil,
        zeroWhitespace, List.map_nil, List.length_cons, List.length_nil]
      rw [if_neg (show ¬ 16 ≤ acc.length + (0 + 1) by omega)]
      simp
  | cons c cs ih =>
    have hcnul : ¬ c = nulChar := fun h => hnul (h ▸ List.mem_cons_self c cs)
    have hnul' : nulChar ∉ cs := fun h => hnul (List.mem_cons_of_mem c h)
    obtain ⟨ihf, iht⟩ := ih hnul'
    have hzwcons : ∀ d : Char, zeroWhitespace (d :: cs) =
        (if isWS d then nulChar else d) :: zeroWhitespace cs := fun d => rfl
    constructor
    · intro acc cur zacc hacc
      by_cases hc : isWS c
      · have hLHS : tokGo acc cur false zacc (c :: cs) =
            tokGo acc [] false (nulChar :: zacc) cs := by
          simp [tokGo, hcnul, hc]
        rw [hLHS, ihf acc [] (nulChar :: zacc) hacc, specTokens_cons_of_pos c cs hc,
          hzwcons c, if_pos hc]
        by_cases hcond : 16 ≤ acc.length + (specTokens cs).length
        · rw [if_pos hcond, if_pos hcond]
        · rw [if_neg hcond, if_neg hcond]
          simp
      · have hc' : isWS c = false := by simpa using hc
        by_cases hacc15 : acc.length = 15
        · have hLHS : tokGo acc cur false zacc (c :: cs) = Except.error acc.reverse := by
            simp [tokGo, hcnul, hc, hacc15, MAXARGS]
          rw [hLHS, specTokens_cons_of_neg c cs hc']
          rw [if_pos (show 16 ≤ acc.length +
            (((c :: cs).takeWhile fun x => !isWS x) ::
              specTokens ((c :: cs).dropWhile fun x => !isWS x)).length by
            simp only [List.length_cons]; omega)]
          rw [hacc15]
          simp
        · have hacc14 : acc.length ≤ 14 := by omega
          have hLHS : tokGo acc cur false zacc (c :: cs) =
              tokGo acc [c] true (c :: zacc) cs := by
            simp [tokGo, hcnul, hc, hacc15, MAXARGS]
          rw [hLHS, iht acc [c] (c :: zacc) hacc14, specTokens_cons_of_neg c cs hc',
            List.takeWhile_cons, List.dropWhile_cons]
          simp only [hc', Bool.not_false, if_true, List.reverse_singleton,
            List.singleton_append]
          by_cases hcond : 16 ≤ acc.length +
              ((c :: cs.takeWhile fun x => !isWS x) ::
                specTokens (cs.dropWhile fun x => !isWS x)).length
          · rw [if_pos hcond, if_pos hcond]
          · rw [if_neg hcond, if_neg hcond]
            rw [hzwcons c, if_neg (by simp [hc']), zeroWhitespace_split cs]
            simp [List.append_assoc]
    · intro acc cur zacc hacc
      by_cases hc : isWS c
      · have hLHS : tokGo acc cur true zacc (c :: cs) =
            tokGo (cur.reverse :: acc) [] false (nulChar :: zacc) cs := by
          simp [tokGo, hcnul, hc]
        rw [hLHS, ihf (cur.reverse :: acc) [] (nulChar :: zacc)
            (by simp only [List.length_cons]; omega),
          List.takeWhile_cons, List.dropWhile_cons]
        simp only [hc, if_true, Bool.not_true, Bool.false_eq_true, if_false,
          List.append_nil, List.length_cons]
        rw [specTokens_cons_of_pos c cs hc, hzwcons c, if_pos hc]
        by_cases hcond : 16 ≤ acc.length + 1 + (specTokens cs).length
        · rw [if_pos hcond,
            if_pos (show 16 ≤ acc.length + ((specTokens cs).length + 1) by omega)]
          rw [show (15 : Nat) - acc.length = (14 - acc.length) + 1 by omega,
            List.take_succ_cons,
            show (15 : Nat) - (acc.length + 1) = 14 - acc.length by omega]
          simp [List.append_assoc]
        · rw [if_neg hcond,
            if_neg (show ¬ 16 ≤ acc.length + ((specTokens cs).length + 1) by omega)]
          simp [List.append_assoc]
      · have hc' : isWS c = false := by simpa using hc
        have hLHS : tokGo acc cur true zacc (c :: cs) =
            tokGo acc (c :: cur) true (c :: zacc) cs := by
          simp [tokGo, hcnul, hc]
        rw [hLHS, iht acc (c :: cur) (c :: zacc) hacc, List.takeWhile_cons,
          List.dropWhile_cons]
        simp only [hc', Bool.not_false, if_true, List.reverse_cons, List.append_assoc,
          List.singleton_append]

/-- Tokenizer characterization at the top-level call of runcmd. -/
lemma tokGo_top (buf : List Char) (hnul : nulChar ∉ buf) :
    tokGo [] [] false [] buf =
      if 16 ≤ (specTokens buf).length
      then Except.error ((specTokens buf).take 15)
      else Except.ok (specTokens buf, zeroWhitespace buf) := by
  have h := (tokGo_spec buf hnul).1 [] [] [] (by simp)
  simpa using h

/-- C4: an input line with more than MAXARGS - 1 = 15 maximal runs
makes tokenization stop with the "too many arguments" report; the
first 15 parsed tokens are retained in the error, no command handler
is invoked, and runcmd returns 0 (continue). -/
theorem runcmd_too_many_args (buf : List Char) (env : Env) (hnul : nulChar ∉ buf)
    (hlen : 16 ≤ (specTokens buf).length) :
    tokGo [] [] false [] buf = Except.error ((specTokens buf).take 15)
    ∧ runcmd buf env = some ([Out.tooMany], 0) := by
  have h := tokGo_top buf hnul
  rw [if_pos hlen] at h
  exact ⟨h, by simp [runcmd, h]⟩

/-- C4 witness: a line of 16 single-character tokens. -/
theorem runcmd_too_many_args_witness :
    tokGo [] [] false [] (String.toList "a a a a a a a a a a a a a a a a") =
      Except.error ((specTokens (String.toList "a a a a a a a a a a a a a a a a")).take 15)
    ∧ runcmd (String.toList "a a a a a a a a a a a a a a a a") testEnv =
        some ([Out.tooMany], 0) :=
  runcmd_too_many_args _ testEnv (by decide) (by decide)

/-- C8 counterexample: a line with 16 maximal runs is tokenized to the
too-many-arguments error, not to its 16 maximal runs, so "for every
input line the tokenizer produces exactly the maximal runs" fails. -/
theorem tokGo_sixteen_runs_counterexample :
    16 ≤ (specTokens (String.toList "a a a a a a a a a a a a a a a a")).length
    ∧ tokGo [] [] false [] (String.toList "a a a a a a a a a a a a a a a a") =
        Except.error ((specTokens (String.toList "a a a a a a a a a a a a a a a a")).take 15)
    ∧ tokGo [] [] false [] (String.toList "a a a a a a a a a a a a a a a a") ≠
        Except.ok (specTokens (String.toList "a a a a a a a a a a a a a a a a"),
          zeroWhitespace (String.toList "a a a a a a a a a a a a a a a a")) :=
  ⟨by decide, rfl, fun h => Except.noConfusion ((rfl :
    tokGo [] [] false [] (String.toList "a a a a a a a a a a a a a a a a") =
      Except.error ((specTokens
        (String.toList "a a a a a a a a a a a a a a a a")).take 15)) ▸ h)⟩

/-- C8 (amended): for every NUL-free input line with at most
MAXARGS - 1 = 15 maximal non-whitespace runs, the tokenizer produces
exactly those maximal runs as tokens and zeroes every whitespace
character; an empty or all-whitespace line yields zero tokens. -/
theorem tokGo_maximal_runs (buf : List Char) (hnul : nulChar ∉ buf)
    (hlen : (specTokens buf).length ≤ 15) :
    tokGo [] [] false [] buf = Except.ok (specTokens buf, zeroWhitespace buf)
    ∧ ((∀ c ∈ buf, isWS c = true) →
        tokGo [] [] false [] buf = Except.ok ([], zeroWhitespace buf)) := by
  have h := tokGo_top buf hnul
  rw [if_neg (by omega)] at h
  exact ⟨h, fun hws => by rw [h, specTokens_all_ws buf hws]⟩

/-- C8 witness: the spec's example line yields exactly the three
expected tokens. -/
theorem tokGo_maximal_runs_witness :
    tokGo [] [] false [] (String.toList "showmappings 0x1000 0x3000") =
      Except.ok (specTokens (String.toList "showmappings 0x1000 0x3000"),
        zeroWhitespace (String.toList "showmappings 0x1000 0x3000"))
    ∧ specTokens (String.toList "showmappings 0x1000 0x3000") =
        [String.toList "showmappings", String.toList "0x1000", String.toList "0x3000"] :=
  ⟨(tokGo_maximal_runs _ (by decide) (by decide)).1, by decide⟩

end JOSMonitor
